import Mathlib

/-!
Verification of the openMSX `Scheduler` (src/Scheduler.hh).

The inline members of `Scheduler` (`schedule`, `getNext`) are embedded
directly from the header.  The out-of-line members (`scheduleHelper`,
`setSyncPoint`, `removeSyncPoint`) are implemented in a translation unit
that is not part of this tree; those are modelled from the specification
(see the doc comment of each such definition).

Virtual-clock instants (`EmuTime`) are modelled as natural numbers: the
only operations the scheduler performs on them are comparisons, which
agree with the total order on tick counts.

Device callbacks (`Schedulable::executeUntil`) are modelled by an
environment mapping a fired synchronization point to the list of
scheduler calls the callback performs; every fired callback is also
recorded in a ghost `fired` log so that theorems can speak about which
callbacks ran and in which order.
-/

namespace openmsx

/-- Virtual-clock instant: ticks since emulation start (`EmuTime`). -/
abbrev EmuTime := Nat

/-- Devices are identified by a stable id (the spec's non-owning handle
to a `Schedulable`). -/
abbrev DeviceId := Nat

/-- A pending registration: `{ time, device, tag }` (class
`Scheduler::SynchronizationPoint` of the header). -/
structure SynchronizationPoint where
  timeStamp : EmuTime
  device : DeviceId
  userData : Int
deriving Repr, DecidableEq

/-- Ghost record of one `executeUntil(time, userData)` invocation. -/
structure Event where
  time : EmuTime
  device : DeviceId
  userData : Int
deriving Repr, DecidableEq

/-- The event of firing a synchronization point. -/
def toEvent (sp : SynchronizationPoint) : Event :=
  { time := sp.timeStamp, device := sp.device, userData := sp.userData }

/-- Scheduler state: the pending-point queue `syncPoints` (kept ordered
by time, equal times in registration order), the current time
`scheduleTime`, the re-entrancy flag `scheduleInProgress`, plus the
ghost log `fired` of callbacks that have run, oldest first. -/
structure State where
  syncPoints : List SynchronizationPoint
  scheduleTime : EmuTime
  scheduleInProgress : Bool
  fired : List Event
deriving Repr, DecidableEq

/-- One scheduler call a device callback may perform. -/
inductive Cmd where
  | setSync (time : EmuTime) (device : DeviceId) (userData : Int)
  | removeSync (device : DeviceId) (userData : Int)
  | schedule (limit : EmuTime)
deriving Repr, DecidableEq

/-- Behaviour of `executeUntil`: the scheduler calls the callback of
`device` performs when fired at `time` with `userData`. -/
abbrev Env := DeviceId → EmuTime → Int → List Cmd

/-- Callbacks that interact with the scheduler in no way. -/
def passiveEnv : Env := fun _ _ _ => []

/-- Embeds `Scheduler::getNext`: `syncPoints.front().getTime()`.  On an
empty queue the source has undefined behaviour (the caller must guard);
the model returns 0 there. -/
def getNext (s : State) : EmuTime :=
  match s.syncPoints with
  | [] => 0
  | sp :: _ => sp.timeStamp

/-- Modelled from the spec: insertion position of a new point.  The
queue is "a heap-ordered sequence keyed by time" with the tie-break
invariant "points with equal time fire in registration order", so a new
point is placed after every point whose time is less than or equal to
its own (`upper_bound`-style stable insertion). -/
def insertPoint : List SynchronizationPoint → SynchronizationPoint →
    List SynchronizationPoint
  | [], sp => [sp]
  | x :: xs, sp =>
    if sp.timeStamp < x.timeStamp then sp :: x :: xs
    else x :: insertPoint xs sp

/-- Modelled from the spec: `Scheduler::setSyncPoint` (its body is in
the missing translation unit).  Precondition: `time` must not be earlier
than the scheduler's current time; violating it is a fatal assertion,
modelled as `none`.  Otherwise the point is inserted into the queue. -/
def setSyncPoint (s : State) (timestamp : EmuTime) (device : DeviceId)
    (userData : Int) : Option State :=
  if timestamp < s.scheduleTime then none
  else
    let sp : SynchronizationPoint :=
      { timeStamp := timestamp, device := device, userData := userData }
    some { s with syncPoints := insertPoint s.syncPoints sp }

/-- Does a pending point belong to `device` with tag `userdata`? -/
def matchesPoint (device : DeviceId) (userdata : Int)
    (sp : SynchronizationPoint) : Bool :=
  sp.device == device && sp.userData == userdata

/-- Removes the first element satisfying `q`, keeping all others. -/
def removeFirst (q : SynchronizationPoint → Bool) :
    List SynchronizationPoint → List SynchronizationPoint
  | [] => []
  | x :: xs => if q x then xs else x :: removeFirst q xs

/-- Modelled from the spec: `Scheduler::removeSyncPoint` (body in the
missing translation unit).  "Cancels one matching point.  If several
match, exactly one is removed, with no guarantee which"; modelled as
erasing the first match found by a linear scan. -/
def removeSyncPoint (s : State) (device : DeviceId) (userdata : Int) :
    State :=
  { s with syncPoints :=
      removeFirst (matchesPoint device userdata) s.syncPoints }

/-- Is the point due at or before `limit`?  The boundary is inclusive:
per the spec, "calling `schedule` exactly at a point's time fires that
point". -/
def dueBool (limit : EmuTime) (sp : SynchronizationPoint) : Bool :=
  decide (sp.timeStamp ≤ limit)

/-- Modelled from the spec: body of `Scheduler::scheduleHelper`,
parametrised by the drain loop `drainFn`.  "A simple boolean scheduling
in progress flag is used to detect and safely short-circuit the nested
call path": when a drain is already in progress the nested call returns
at once; otherwise the flag is set, the queue is drained, and the flag
is cleared on exit. -/
def scheduleHelperWith (drainFn : EmuTime → State → Option State)
    (limit : EmuTime) (s : State) : Option State :=
  if s.scheduleInProgress then some s
  else Option.map (fun t => { t with scheduleInProgress := false })
    (drainFn limit { s with scheduleInProgress := true })

/-- Embeds `Scheduler::schedule` from the header, parametrised by the
drain loop: `if (limit >= getNext()) scheduleHelper(limit);
scheduleTime = limit;`.  The assignment to `scheduleTime` is
unconditional and happens after the (possible) helper call. -/
def scheduleWith (drainFn : EmuTime → State → Option State)
    (limit : EmuTime) (s : State) : Option State :=
  Option.map (fun t => { t with scheduleTime := limit })
    (if getNext s ≤ limit then scheduleHelperWith drainFn limit s
     else some s)

/-- Interprets one scheduler call made from inside a callback. -/
def runCmdWith (drainFn : EmuTime → State → Option State) (s : State) :
    Cmd → Option State
  | Cmd.setSync t d u => setSyncPoint s t d u
  | Cmd.removeSync d u => some (removeSyncPoint s d u)
  | Cmd.schedule l => scheduleWith drainFn l s

/-- Interprets the list of scheduler calls a callback performs. -/
def runCmdsWith (drainFn : EmuTime → State → Option State) :
    List Cmd → State → Option State
  | [], s => some s
  | c :: cs, s =>
    match runCmdWith drainFn s c with
    | none => none
    | some s2 => runCmdsWith drainFn cs s2

/-- Modelled from the spec: the drain loop of `scheduleHelper` (body in
the missing translation unit).  "Repeatedly pop the earliest point, set
current time to that point's time, and invoke its device's
`executeUntil`", with an inclusive boundary, until the earliest point is
beyond `limit`.  Each fired callback is appended to the ghost log and
its scheduler calls are interpreted; `fuel` bounds the number of
iterations (`none` means the bound was too small, which never happens in
the theorems below). -/
def drain (env : Env) : Nat → EmuTime → State → Option State
  | 0, _, _ => none
  | fuel + 1, limit, s =>
    match s.syncPoints with
    | [] => some s
    | sp :: rest =>
      if dueBool limit sp then
        match runCmdsWith (fun l t => drain env fuel l t)
            (env sp.device sp.timeStamp sp.userData)
            { s with syncPoints := rest, scheduleTime := sp.timeStamp,
                     fired := s.fired ++ [toEvent sp] } with
        | none => none
        | some s2 => drain env fuel limit s2
      else some s

/-- Embeds `Scheduler::schedule` with the drain loop plugged in. -/
def schedule (env : Env) (fuel : Nat) (limit : EmuTime) (s : State) :
    Option State :=
  scheduleWith (fun l t => drain env fuel l t) limit s

/-- The queue invariant: `syncPoints` is ordered by time (equal times
are adjacent, in registration order). -/
def timeSorted (l : List SynchronizationPoint) : Prop :=
  l.Pairwise (fun a b => a.timeStamp ≤ b.timeStamp)

/-- Environments whose callbacks only ever call `schedule` (possibly
with nested, smaller limits), as in the re-entrancy scenario. -/
def scheduleOnly (env : Env) : Prop :=
  ∀ d t u, ∀ c ∈ env d t u, ∃ l, c = Cmd.schedule l

/-- Applies a batch of `removeSyncPoint` cancellations. -/
def applyRemovals (rs : List (DeviceId × Int)) (s : State) : State :=
  rs.foldl (fun t r => removeSyncPoint t r.1 r.2) s

/-- A nested `schedule` call made while a drain is in progress only
updates the bookkeeping field `scheduleTime` and returns: the helper
short-circuits on the `scheduleInProgress` flag. -/
theorem scheduleWith_inProgress (drainFn : EmuTime → State → Option State)
    (limit : EmuTime) (s : State) (h : s.scheduleInProgress = true) :
    scheduleWith drainFn limit s = some { s with scheduleTime := limit } := by
  simp [scheduleWith, scheduleHelperWith, h]

/-- Running the calls of a schedule-only callback while the flag is set
changes at most `scheduleTime`. -/
theorem runCmdsWith_scheduleOnly
    (drainFn : EmuTime → State → Option State) :
    ∀ (cs : List Cmd) (s : State),
      (∀ c ∈ cs, ∃ l, c = Cmd.schedule l) → s.scheduleInProgress = true →
      ∃ t, runCmdsWith drainFn cs s = some { s with scheduleTime := t }
  | [], s, _, _ => ⟨s.scheduleTime, rfl⟩
  | c :: cs, s, h, hflag => by
    obtain ⟨l, rfl⟩ := h c (List.mem_cons_self c cs)
    have hstep : runCmdWith drainFn s (Cmd.schedule l) =
        some { s with scheduleTime := l } :=
      scheduleWith_inProgress drainFn l s hflag
    obtain ⟨t, ht⟩ := runCmdsWith_scheduleOnly drainFn cs
      { s with scheduleTime := l }
      (fun c hc => h c (List.mem_cons_of_mem _ hc)) hflag
    exact ⟨t, by simp [runCmdsWith, hstep, ht]⟩

/-- Draining with schedule-only callbacks pops exactly the due prefix
of the queue and fires exactly its callbacks, in queue order. -/
theorem drain_scheduleOnly (env : Env) (henv : scheduleOnly env) :
    ∀ (fuel : Nat) (limit : EmuTime) (s : State),
      s.scheduleInProgress = true → s.syncPoints.length < fuel →
      ∃ t, drain env fuel limit s =
        some { syncPoints := s.syncPoints.dropWhile (dueBool limit),
               scheduleTime := t, scheduleInProgress := true,
               fired := s.fired ++
                 (s.syncPoints.takeWhile (dueBool limit)).map toEvent }
  | 0, _, _, _, hfuel => absurd hfuel (by omega)
  | fuel + 1, limit, s, hflag, hfuel => by
    obtain ⟨q, st, fl, fd⟩ := s
    simp only at hflag
    subst hflag
    match q with
    | [] =>
      exact ⟨st, by simp [drain]⟩
    | sp :: rest =>
      by_cases hdue : dueBool limit sp
      · obtain ⟨t1, ht1⟩ := runCmdsWith_scheduleOnly
          (fun l t => drain env fuel l t)
          (env sp.device sp.timeStamp sp.userData)
          { syncPoints := rest, scheduleTime := sp.timeStamp,
            scheduleInProgress := true, fired := fd ++ [toEvent sp] }
          (henv sp.device sp.timeStamp sp.userData) rfl
        have hlen : rest.length < fuel := by
          simp only [List.length_cons] at hfuel; omega
        obtain ⟨t, ht⟩ := drain_scheduleOnly env henv fuel limit
          { syncPoints := rest, scheduleTime := t1,
            scheduleInProgress := true, fired := fd ++ [toEvent sp] }
          rfl hlen
        refine ⟨t, ?_⟩
        simp only [drain, ht1, ht]
        simp [hdue, List.takeWhile_cons, List.dropWhile_cons]
      · refine ⟨st, ?_⟩
        simp only [Bool.not_eq_true] at hdue
        simp [drain, hdue, List.takeWhile_cons, List.dropWhile_cons]

/-- A top-level `schedule(limit)` call (flag clear, enough fuel) with
schedule-only callbacks: every due point fires exactly once, in queue
order, the due prefix leaves the queue, and the current time ends at
exactly `limit`. -/
theorem schedule_scheduleOnly (env : Env) (henv : scheduleOnly env)
    (fuel : Nat) (limit : EmuTime) (s : State)
    (hflag : s.scheduleInProgress = false)
    (hfuel : s.syncPoints.length < fuel) :
    schedule env fuel limit s =
      some { syncPoints := s.syncPoints.dropWhile (dueBool limit),
             scheduleTime := limit, scheduleInProgress := false,
             fired := s.fired ++
               (s.syncPoints.takeWhile (dueBool limit)).map toEvent } := by
  obtain ⟨q, st, fl, fd⟩ := s
  simp only at hflag
  subst hflag
  by_cases hc : getNext ⟨q, st, false, fd⟩ ≤ limit
  · obtain ⟨t, ht⟩ := drain_scheduleOnly env henv fuel limit
      { syncPoints := q, scheduleTime := st,
        scheduleInProgress := true, fired := fd } rfl hfuel
    simp [schedule, scheduleWith, scheduleHelperWith, hc, ht]
  · match q with
    | [] => simp [getNext] at hc
    | sp :: rest =>
      have hsp : ¬ sp.timeStamp ≤ limit := by
        simpa [getNext] using hc
      have hdue : dueBool limit sp = false := by
        simp [dueBool, hsp]
      simp [schedule, scheduleWith, hc, List.takeWhile_cons,
        List.dropWhile_cons, hdue]

/-- Membership in the queue after an insertion. -/
theorem mem_insertPoint (p a : SynchronizationPoint) :
    ∀ l : List SynchronizationPoint,
      a ∈ insertPoint l p ↔ a = p ∨ a ∈ l
  | [] => by simp [insertPoint]
  | x :: xs => by
    by_cases h : p.timeStamp < x.timeStamp
    · rw [insertPoint, if_pos h]
      simp only [List.mem_cons]
    · rw [insertPoint, if_neg h]
      simp only [List.mem_cons, mem_insertPoint p a xs]
      tauto

/-- Stable insertion preserves the time ordering of the queue. -/
theorem insertPoint_sorted (p : SynchronizationPoint) :
    ∀ l : List SynchronizationPoint,
      timeSorted l → timeSorted (insertPoint l p)
  | [], _ => by simp [insertPoint, timeSorted]
  | x :: xs, h => by
    simp only [timeSorted, List.pairwise_cons] at h
    obtain ⟨hx, hxs⟩ := h
    by_cases hlt : p.timeStamp < x.timeStamp
    · rw [insertPoint, if_pos hlt]
      simp only [timeSorted, List.pairwise_cons]
      refine ⟨?_, hx, hxs⟩
      intro b hb
      rcases List.mem_cons.mp hb with rfl | hb
      · exact le_of_lt hlt
      · exact le_trans (le_of_lt hlt) (hx b hb)
    · rw [insertPoint, if_neg hlt]
      simp only [timeSorted, List.pairwise_cons]
      refine ⟨?_, insertPoint_sorted p xs hxs⟩
      intro b hb
      rcases (mem_insertPoint p b xs).mp hb with rfl | hb
      · exact le_of_not_lt hlt
      · exact hx b hb

/-- The inserted point is a member of the resulting queue. -/
theorem self_mem_insertPoint (p : SynchronizationPoint)
    (l : List SynchronizationPoint) : p ∈ insertPoint l p :=
  (mem_insertPoint p p l).mpr (Or.inl rfl)

/-- Registering two points with equal times places the first-registered
one before the second-registered one in the queue. -/
theorem insert_insert_sublist (p1 p2 : SynchronizationPoint)
    (h : p1.timeStamp = p2.timeStamp) :
    ∀ l : List SynchronizationPoint,
      List.Sublist [p1, p2] (insertPoint (insertPoint l p1) p2)
  | [] => by
    have h2 : ¬ p2.timeStamp < p1.timeStamp := not_lt.mpr (le_of_eq h)
    show List.Sublist [p1, p2] (insertPoint [p1] p2)
    rw [insertPoint, if_neg h2, insertPoint]
  | x :: xs => by
    by_cases hlt : p1.timeStamp < x.timeStamp
    · have h2 : ¬ p2.timeStamp < p1.timeStamp := not_lt.mpr (le_of_eq h)
      rw [insertPoint, if_pos hlt, insertPoint, if_neg h2]
      exact List.Sublist.cons₂ p1
        ((List.singleton_sublist).mpr (self_mem_insertPoint p2 (x :: xs)))
    · have h2 : ¬ p2.timeStamp < x.timeStamp :=
        not_lt.mpr (le_trans (le_of_not_lt hlt) (le_of_eq h))
      rw [insertPoint, if_neg hlt, insertPoint, if_neg h2]
      exact List.Sublist.cons x (insert_insert_sublist p1 p2 h xs)

/-- Removing one element yields a sublist of the original queue. -/
theorem removeFirst_sublist (q : SynchronizationPoint → Bool) :
    ∀ l : List SynchronizationPoint, List.Sublist (removeFirst q l) l
  | [] => List.Sublist.refl _
  | x :: xs => by
    by_cases h : q x
    · rw [removeFirst, if_pos h]
      exact List.sublist_cons_self x xs
    · rw [removeFirst, if_neg h]
      exact List.Sublist.cons₂ x (removeFirst_sublist q xs)

/-- A sublist of elements the removal predicate rejects survives the
removal, in order. -/
theorem sublist_removeFirst (q : SynchronizationPoint → Bool) :
    ∀ (l u : List SynchronizationPoint), List.Sublist u l →
      (∀ a ∈ u, q a = false) → List.Sublist u (removeFirst q l)
  | [], u, hu, _ => by simpa [removeFirst] using hu
  | x :: xs, u, hu, hq => by
    by_cases h : q x
    · rw [removeFirst, if_pos h]
      rcases List.sublist_cons_iff.mp hu with hu | ⟨r, rfl, hr⟩
      · exact hu
      · have hfalse := hq x (List.mem_cons_self x r)
        simp [h] at hfalse
    · rw [removeFirst, if_neg h]
      rcases List.sublist_cons_iff.mp hu with hu | ⟨r, rfl, hr⟩
      · exact List.Sublist.cons x (sublist_removeFirst q xs u hu hq)
      · exact List.Sublist.cons₂ x (sublist_removeFirst q xs r hr
          (fun a ha => hq a (List.mem_cons_of_mem x ha)))

/-- In a time-ordered queue, a point with a strictly smaller time
occurs before a point with a strictly larger time. -/
theorem pair_sublist_of_sorted (p1 p2 : SynchronizationPoint)
    (hlt : p1.timeStamp < p2.timeStamp) :
    ∀ l : List SynchronizationPoint, timeSorted l →
      p1 ∈ l → p2 ∈ l → List.Sublist [p1, p2] l
  | [], _, h1, _ => by cases h1
  | x :: xs, hsorted, h1, h2 => by
    simp only [timeSorted, List.pairwise_cons] at hsorted
    obtain ⟨hx, hxs⟩ := hsorted
    rcases List.mem_cons.mp h1 with rfl | h1
    · have h2' : p2 ∈ xs := by
        rcases List.mem_cons.mp h2 with heq | h2'
        · subst heq
          exact absurd hlt (lt_irrefl _)
        · exact h2'
      exact List.Sublist.cons₂ p1 ((List.singleton_sublist).mpr h2')
    · have h2' : p2 ∈ xs := by
        rcases List.mem_cons.mp h2 with heq | h2'
        · have hle := hx p1 h1
          subst heq
          exact absurd hlt (not_lt.mpr hle)
        · exact h2'
      exact List.Sublist.cons x (pair_sublist_of_sorted p1 p2 hlt xs hxs h1 h2')

/-- In a time-ordered queue, a sublist of due points is a sublist of
the due prefix. -/
theorem sublist_takeWhile_of_sorted (limit : EmuTime) :
    ∀ (l u : List SynchronizationPoint), timeSorted l →
      List.Sublist u l → (∀ a ∈ u, dueBool limit a = true) →
      List.Sublist u (l.takeWhile (dueBool limit))
  | [], u, _, hu, _ => by simpa using hu
  | x :: xs, u, hsorted, hu, hdue => by
    simp only [timeSorted, List.pairwise_cons] at hsorted
    obtain ⟨hx, hxs⟩ := hsorted
    rw [List.takeWhile_cons]
    by_cases h : dueBool limit x
    · rw [if_pos h]
      rcases List.sublist_cons_iff.mp hu with hu | ⟨r, rfl, hr⟩
      · exact List.Sublist.cons x
          (sublist_takeWhile_of_sorted limit xs u hxs hu hdue)
      · exact List.Sublist.cons₂ x (sublist_takeWhile_of_sorted limit xs r
          hxs hr (fun a ha => hdue a (List.mem_cons_of_mem x ha)))
    · rw [if_neg h]
      cases u with
      | nil => exact List.Sublist.slnil
      | cons a u' =>
        exfalso
        have ha : a ∈ x :: xs := hu.subset (List.mem_cons_self a u')
        have hduea := hdue a (List.mem_cons_self a u')
        simp only [dueBool, decide_eq_true_eq] at hduea h
        rcases List.mem_cons.mp ha with heq | ha
        · subst heq
          exact h hduea
        · have hle := hx a ha
          exact h (le_trans hle hduea)
/-- Passive callbacks are trivially schedule-only. -/
theorem passive_scheduleOnly : scheduleOnly passiveEnv := by
  intro d t u c hc
  simp [passiveEnv] at hc

/-- Registering at or after the current time succeeds and performs the
stable insertion. -/
theorem setSyncPoint_eq (s : State) (t : EmuTime) (d : DeviceId) (u : Int)
    (h : s.scheduleTime ≤ t) :
    setSyncPoint s t d u =
      some { s with syncPoints := insertPoint s.syncPoints ⟨t, d, u⟩ } := by
  rw [setSyncPoint, if_neg (not_lt.mpr h)]

/-- Registering strictly before the current time trips the assertion. -/
theorem setSyncPoint_none (s : State) (t : EmuTime) (d : DeviceId) (u : Int)
    (h : t < s.scheduleTime) : setSyncPoint s t d u = none := by
  rw [setSyncPoint, if_pos h]

/-- A point whose device/tag pair differs from the cancellation request
is not selected by the removal predicate. -/
theorem matchesPoint_eq_false (d : DeviceId) (u : Int)
    (sp : SynchronizationPoint) (h : ¬(sp.device = d ∧ sp.userData = u)) :
    matchesPoint d u sp = false := by
  by_cases h1 : sp.device = d
  · by_cases h2 : sp.userData = u
    · exact absurd ⟨h1, h2⟩ h
    · simp [matchesPoint, h2]
  · simp [matchesPoint, h1]

/-- Cancellations never touch the current time, the re-entrancy flag or
the fired log, and only ever shrink the queue. -/
theorem applyRemovals_fields :
    ∀ (rs : List (DeviceId × Int)) (s : State),
      (applyRemovals rs s).scheduleTime = s.scheduleTime ∧
      (applyRemovals rs s).scheduleInProgress = s.scheduleInProgress ∧
      (applyRemovals rs s).fired = s.fired ∧
      List.Sublist (applyRemovals rs s).syncPoints s.syncPoints
  | [], s => ⟨rfl, rfl, rfl, List.Sublist.refl _⟩
  | r :: rs, s => by
    have ih := applyRemovals_fields rs (removeSyncPoint s r.1 r.2)
    refine ⟨ih.1, ih.2.1, ih.2.2.1, ih.2.2.2.trans ?_⟩
    exact removeFirst_sublist (matchesPoint r.1 r.2) s.syncPoints

/-- Pending points that no cancellation in the batch selects survive
all the cancellations, in order. -/
theorem sublist_applyRemovals :
    ∀ (rs : List (DeviceId × Int)) (s : State)
      (u : List SynchronizationPoint),
      List.Sublist u s.syncPoints →
      (∀ r ∈ rs, ∀ a ∈ u, matchesPoint r.1 r.2 a = false) →
      List.Sublist u (applyRemovals rs s).syncPoints
  | [], _, _, hu, _ => hu
  | r :: rs, s, u, hu, hm =>
    sublist_applyRemovals rs (removeSyncPoint s r.1 r.2) u
      (sublist_removeFirst (matchesPoint r.1 r.2) s.syncPoints u hu
        (hm r (List.mem_cons_self r rs)))
      (fun r' hr' => hm r' (List.mem_cons_of_mem r hr'))

/-- Removing the first match drops exactly one matching element and
keeps every non-matching element, in order. -/
theorem removeFirst_filter (q : SynchronizationPoint → Bool) :
    ∀ l : List SynchronizationPoint, (∃ a ∈ l, q a = true) →
      ((removeFirst q l).filter q).length + 1 = (l.filter q).length ∧
      (removeFirst q l).filter (fun a => !(q a)) =
        l.filter (fun a => !(q a))
  | [], h => by simp at h
  | x :: xs, h => by
    by_cases hx : q x
    · rw [removeFirst, if_pos hx]
      constructor
      · simp [List.filter_cons, hx]
      · simp [List.filter_cons, hx]
    · rw [removeFirst, if_neg hx]
      have h' : ∃ a ∈ xs, q a = true := by
        rcases h with ⟨a, ha, hqa⟩
        rcases List.mem_cons.mp ha with rfl | ha
        · exact absurd hqa hx
        · exact ⟨a, ha, hqa⟩
      obtain ⟨ih1, ih2⟩ := removeFirst_filter q xs h'
      constructor
      · simpa [List.filter_cons, hx] using ih1
      · simpa [List.filter_cons, hx] using ih2

/-- C1: for every call `schedule(limit)` in which `limit` is strictly
earlier than the time of the earliest pending synchronization point
(equivalently, earlier than every pending point), the call sets the
current time to exactly `limit`, invokes no `executeUntil` callback and
leaves the event queue unchanged: the result differs from the input
state only in `scheduleTime`. -/
theorem scheduler_C1_fast_path (env : Env) (fuel : Nat) (limit : EmuTime)
    (s : State) (hne : s.syncPoints ≠ [])
    (hlt : ∀ sp ∈ s.syncPoints, limit < sp.timeStamp) :
    schedule env fuel limit s = some { s with scheduleTime := limit } := by
  have hnext : ¬ getNext s ≤ limit := by
    cases hq : s.syncPoints with
    | nil => exact absurd hq hne
    | cons sp rest =>
      have hmem : sp ∈ s.syncPoints := by
        rw [hq]; exact List.mem_cons_self sp rest
      simp only [getNext, hq, not_le]
      exact hlt sp hmem
  rw [schedule, scheduleWith, if_neg hnext]
  rfl

/-- Witness for C1 at a concrete input: one point pending at time 10,
`schedule(4)` merely records the new current time 4. -/
theorem scheduler_C1_fast_path_witness :
    schedule passiveEnv 1 4
      { syncPoints := [{ timeStamp := 10, device := 2, userData := 5 }],
        scheduleTime := 0, scheduleInProgress := false, fired := [] } =
    some
      { syncPoints := [{ timeStamp := 10, device := 2, userData := 5 }],
        scheduleTime := 4, scheduleInProgress := false, fired := [] } :=
  scheduler_C1_fast_path passiveEnv 1 4
    { syncPoints := [{ timeStamp := 10, device := 2, userData := 5 }],
      scheduleTime := 0, scheduleInProgress := false, fired := [] }
    (by decide) (by decide)

/-- C2: for a pending synchronization point with time `T`, calling
`schedule(T)` — the limit exactly equal to the registered time — fires
that point's callback (the boundary is inclusive: the header routes
`limit >= getNext()` to the slow path), and the current time afterwards
equals exactly `T`. -/
theorem scheduler_C2_inclusive_boundary (fuel : Nat) (s : State)
    (sp : SynchronizationPoint) (hsorted : timeSorted s.syncPoints)
    (hflag : s.scheduleInProgress = false) (hmem : sp ∈ s.syncPoints)
    (hfuel : s.syncPoints.length < fuel) :
    ∃ s', schedule passiveEnv fuel sp.timeStamp s = some s' ∧
      toEvent sp ∈ s'.fired ∧ s'.scheduleTime = sp.timeStamp := by
  have hmain := schedule_scheduleOnly passiveEnv passive_scheduleOnly
    fuel sp.timeStamp s hflag hfuel
  refine ⟨_, hmain, ?_, rfl⟩
  have htw : List.Sublist [sp]
      (s.syncPoints.takeWhile (dueBool sp.timeStamp)) := by
    refine sublist_takeWhile_of_sorted sp.timeStamp s.syncPoints [sp]
      hsorted ((List.singleton_sublist).mpr hmem) ?_
    intro a ha
    rcases List.mem_cons.mp ha with rfl | h0
    · simp [dueBool]
    · cases h0
  have hmemtw : sp ∈ s.syncPoints.takeWhile (dueBool sp.timeStamp) :=
    (List.singleton_sublist).mp htw
  simp only [List.mem_append]
  right
  exact List.mem_map_of_mem toEvent hmemtw

/-- Witness for C2 at a concrete input: a point registered at time 5;
`schedule(5)` fires it and current time ends at 5. -/
theorem scheduler_C2_inclusive_boundary_witness :
    ∃ s', schedule passiveEnv 2 5
      { syncPoints := [{ timeStamp := 5, device := 1, userData := 0 }],
        scheduleTime := 0, scheduleInProgress := false, fired := [] } =
        some s' ∧
      toEvent { timeStamp := 5, device := 1, userData := 0 } ∈ s'.fired ∧
      s'.scheduleTime = 5 :=
  scheduler_C2_inclusive_boundary 2
    { syncPoints := [{ timeStamp := 5, device := 1, userData := 0 }],
      scheduleTime := 0, scheduleInProgress := false, fired := [] }
    { timeStamp := 5, device := 1, userData := 0 }
    (by simp [timeSorted]) rfl (by decide) (by decide)

/-- C3 as stated is false at a concrete input: with a single point
pending at time 5 and `schedule(5)` — the earliest pending time equal
to `limit` — the call does not take the fast path: the point's callback
fires and the point leaves the queue, instead of the state merely
recording `scheduleTime := 5` (the header routes `limit >= getNext()`,
equality included, to `scheduleHelper`). -/
theorem scheduler_C3_counterexample :
    schedule passiveEnv 2 5
      { syncPoints := [{ timeStamp := 5, device := 1, userData := 0 }],
        scheduleTime := 0, scheduleInProgress := false, fired := [] } =
      some
        { syncPoints := [], scheduleTime := 5, scheduleInProgress := false,
          fired := [{ time := 5, device := 1, userData := 0 }] } ∧
    ¬ schedule passiveEnv 2 5
      { syncPoints := [{ timeStamp := 5, device := 1, userData := 0 }],
        scheduleTime := 0, scheduleInProgress := false, fired := [] } =
      some
        { syncPoints := [{ timeStamp := 5, device := 1, userData := 0 }],
          scheduleTime := 5, scheduleInProgress := false, fired := [] } := by
  decide

/-- C3 amended: the fast path — recording `limit` as the new current
time with the queue untouched and no callback invoked — is taken
exactly when the earliest pending point's time is strictly beyond
`limit`; at exact equality (and below) the slow path runs instead. -/
theorem scheduler_C3_fast_path_strict (fuel : Nat) (limit : EmuTime)
    (s : State) (hne : s.syncPoints ≠ [])
    (hflag : s.scheduleInProgress = false)
    (hfuel : s.syncPoints.length < fuel) :
    schedule passiveEnv fuel limit s =
        some { s with scheduleTime := limit } ↔
      limit < getNext s := by
  constructor
  · intro heq
    by_contra hge
    have hle : getNext s ≤ limit := not_lt.mp hge
    have hmain := schedule_scheduleOnly passiveEnv passive_scheduleOnly
      fuel limit s hflag hfuel
    rw [hmain] at heq
    have hfired := congrArg State.fired (Option.some.inj heq)
    cases hq : s.syncPoints with
    | nil => exact hne hq
    | cons sp rest =>
      have hdue : dueBool limit sp = true := by
        simp only [dueBool, decide_eq_true_eq]
        simpa [getNext, hq] using hle
      rw [hq] at hfired
      simp only [List.takeWhile_cons, hdue, if_true, List.map_cons] at hfired
      have hlen := congrArg List.length hfired
      simp [List.length_append] at hlen
  · intro hlt
    have hnext : ¬ getNext s ≤ limit := not_le.mpr hlt
    simp [schedule, scheduleWith, hnext]

/-- Witness for the amended C3 at a concrete input: one point at
time 10, `schedule(4)`; the fast-path characterisation holds. -/
theorem scheduler_C3_fast_path_strict_witness :
    schedule passiveEnv 2 4
      { syncPoints := [{ timeStamp := 10, device := 2, userData := 5 }],
        scheduleTime := 0, scheduleInProgress := false, fired := [] } =
      some
        { syncPoints := [{ timeStamp := 10, device := 2, userData := 5 }],
          scheduleTime := 4, scheduleInProgress := false, fired := [] } ↔
    4 < getNext
      { syncPoints := [{ timeStamp := 10, device := 2, userData := 5 }],
        scheduleTime := 0, scheduleInProgress := false, fired := [] } :=
  scheduler_C3_fast_path_strict 2 4
    { syncPoints := [{ timeStamp := 10, device := 2, userData := 5 }],
      scheduleTime := 0, scheduleInProgress := false, fired := [] }
    (by decide) rfl (by decide)

/-- C4: registering two synchronization points (possibly for different
devices) at the same time `T`, then — after cancelling any batch of
points none of which carries one of those two device/tag pairs —
advancing the scheduler past `T` fires the two callbacks in
registration order: first registered, first fired. -/
theorem scheduler_C4_tie_break (s s1 s2 : State) (T limit : EmuTime)
    (d1 d2 : DeviceId) (u1 u2 : Int) (rs : List (DeviceId × Int))
    (fuel : Nat)
    (hsorted : timeSorted s.syncPoints)
    (hflag : s.scheduleInProgress = false)
    (hset1 : setSyncPoint s T d1 u1 = some s1)
    (hset2 : setSyncPoint s1 T d2 u2 = some s2)
    (hrs : ∀ r ∈ rs, ¬(r.1 = d1 ∧ r.2 = u1) ∧ ¬(r.1 = d2 ∧ r.2 = u2))
    (hlim : T ≤ limit)
    (hfuel : (applyRemovals rs s2).syncPoints.length < fuel) :
    ∃ s', schedule passiveEnv fuel limit (applyRemovals rs s2) = some s' ∧
      List.Sublist
        [{ time := T, device := d1, userData := u1 },
         { time := T, device := d2, userData := u2 }] s'.fired := by
  have hT1 : s.scheduleTime ≤ T := by
    by_contra hc
    rw [setSyncPoint_none s T d1 u1 (not_le.mp hc)] at hset1
    cases hset1
  rw [setSyncPoint_eq s T d1 u1 hT1] at hset1
  have hs1 := Option.some.inj hset1
  subst hs1
  have hT2 : (State.mk (insertPoint s.syncPoints ⟨T, d1, u1⟩)
      s.scheduleTime s.scheduleInProgress s.fired).scheduleTime ≤ T := hT1
  rw [setSyncPoint_eq _ T d2 u2 hT2] at hset2
  have hs2 := (Option.some.inj hset2).symm
  have hq2 : s2.syncPoints =
      insertPoint (insertPoint s.syncPoints ⟨T, d1, u1⟩) ⟨T, d2, u2⟩ := by
    rw [hs2]
  have hfl2 : s2.scheduleInProgress = false := by
    rw [hs2]; exact hflag
  have hpair2 : List.Sublist
      [(⟨T, d1, u1⟩ : SynchronizationPoint), ⟨T, d2, u2⟩]
      (insertPoint (insertPoint s.syncPoints ⟨T, d1, u1⟩) ⟨T, d2, u2⟩) :=
    insert_insert_sublist ⟨T, d1, u1⟩ ⟨T, d2, u2⟩ rfl s.syncPoints
  have hsorted2 : timeSorted s2.syncPoints := by
    rw [hq2]
    exact insertPoint_sorted _ _ (insertPoint_sorted _ _ hsorted)
  have hq3 : ∀ r ∈ rs,
      ∀ a ∈ [(⟨T, d1, u1⟩ : SynchronizationPoint), ⟨T, d2, u2⟩],
      matchesPoint r.1 r.2 a = false := by
    intro r hr a ha
    rcases List.mem_cons.mp ha with rfl | ha
    · exact matchesPoint_eq_false r.1 r.2 _
        (fun hc => (hrs r hr).1 ⟨hc.1.symm, hc.2.symm⟩)
    · rcases List.mem_cons.mp ha with rfl | ha
      · exact matchesPoint_eq_false r.1 r.2 _
          (fun hc => (hrs r hr).2 ⟨hc.1.symm, hc.2.symm⟩)
      · cases ha
  have hpair3 : List.Sublist
      [(⟨T, d1, u1⟩ : SynchronizationPoint), ⟨T, d2, u2⟩]
      (applyRemovals rs s2).syncPoints :=
    sublist_applyRemovals rs s2 _ (by rw [hq2]; exact hpair2) hq3
  obtain ⟨hst3, hfl3, hfd3, hsub3⟩ := applyRemovals_fields rs s2
  have hsorted3 : timeSorted (applyRemovals rs s2).syncPoints :=
    hsorted2.sublist hsub3
  have hflag3 : (applyRemovals rs s2).scheduleInProgress = false := by
    rw [hfl3, hfl2]
  have hmain := schedule_scheduleOnly passiveEnv passive_scheduleOnly
    fuel limit (applyRemovals rs s2) hflag3 hfuel
  refine ⟨_, hmain, ?_⟩
  have hdueall : ∀ a ∈
      [(⟨T, d1, u1⟩ : SynchronizationPoint), ⟨T, d2, u2⟩],
      dueBool limit a = true := by
    intro a ha
    rcases List.mem_cons.mp ha with rfl | ha
    · simp only [dueBool, decide_eq_true_eq]; exact hlim
    · rcases List.mem_cons.mp ha with rfl | ha
      · simp only [dueBool, decide_eq_true_eq]; exact hlim
      · cases ha
  have htw := sublist_takeWhile_of_sorted limit
    (applyRemovals rs s2).syncPoints _ hsorted3 hpair3 hdueall
  exact (htw.map toEvent).trans (List.sublist_append_right _ _)

/-- Witness for C4 at a concrete input: devices 1 and 2 both register
points for time 10 (in that order), a cancellation for an absent pair
intervenes, and `schedule(25)` fires them in registration order. -/
theorem scheduler_C4_tie_break_witness :
    ∃ s', schedule passiveEnv 3 25
      (applyRemovals [(3, 0)]
        { syncPoints :=
            [{ timeStamp := 10, device := 1, userData := 0 },
             { timeStamp := 10, device := 2, userData := 0 }],
          scheduleTime := 0, scheduleInProgress := false, fired := [] }) =
        some s' ∧
      List.Sublist
        [{ time := 10, device := 1, userData := 0 },
         { time := 10, device := 2, userData := 0 }] s'.fired :=
  scheduler_C4_tie_break
    { syncPoints := [], scheduleTime := 0, scheduleInProgress := false,
      fired := [] }
    { syncPoints := [{ timeStamp := 10, device := 1, userData := 0 }],
      scheduleTime := 0, scheduleInProgress := false, fired := [] }
    { syncPoints :=
        [{ timeStamp := 10, device := 1, userData := 0 },
         { timeStamp := 10, device := 2, userData := 0 }],
      scheduleTime := 0, scheduleInProgress := false, fired := [] }
    10 25 1 2 0 0 [(3, 0)] 3
    (by unfold timeSorted; decide) rfl (by decide) (by decide)
    (by decide) (by decide) (by decide)

/-- C5: for two pending points with times `T1 < T2`, both due at or
before the schedule limit, the `T1` callback fires strictly before the
`T2` callback, regardless of the order in which the two points were
registered (the hypothesis constrains only membership in the queue). -/
theorem scheduler_C5_time_ordering (fuel : Nat) (limit : EmuTime)
    (s : State) (p1 p2 : SynchronizationPoint)
    (hsorted : timeSorted s.syncPoints)
    (hflag : s.scheduleInProgress = false)
    (h1 : p1 ∈ s.syncPoints) (h2 : p2 ∈ s.syncPoints)
    (hlt : p1.timeStamp < p2.timeStamp) (hdue : p2.timeStamp ≤ limit)
    (hfuel : s.syncPoints.length < fuel) :
    ∃ s', schedule passiveEnv fuel limit s = some s' ∧
      List.Sublist [toEvent p1, toEvent p2] s'.fired := by
  have hmain := schedule_scheduleOnly passiveEnv passive_scheduleOnly
    fuel limit s hflag hfuel
  refine ⟨_, hmain, ?_⟩
  have hpair := pair_sublist_of_sorted p1 p2 hlt s.syncPoints hsorted h1 h2
  have hdueall : ∀ a ∈ [p1, p2], dueBool limit a = true := by
    intro a ha
    rcases List.mem_cons.mp ha with rfl | ha
    · simp only [dueBool, decide_eq_true_eq]
      exact le_trans (le_of_lt hlt) hdue
    · rcases List.mem_cons.mp ha with rfl | ha
      · simp only [dueBool, decide_eq_true_eq]
        exact hdue
      · cases ha
  have htw := sublist_takeWhile_of_sorted limit s.syncPoints [p1, p2]
    hsorted hpair hdueall
  exact (htw.map toEvent).trans (List.sublist_append_right _ _)

/-- Witness for C5 at a concrete input: points at times 3 and 9,
`schedule(10)` fires the time-3 callback before the time-9 one. -/
theorem scheduler_C5_time_ordering_witness :
    ∃ s', schedule passiveEnv 3 10
      { syncPoints :=
          [{ timeStamp := 3, device := 1, userData := 0 },
           { timeStamp := 9, device := 2, userData := 1 }],
        scheduleTime := 0, scheduleInProgress := false, fired := [] } =
        some s' ∧
      List.Sublist
        [toEvent { timeStamp := 3, device := 1, userData := 0 },
         toEvent { timeStamp := 9, device := 2, userData := 1 }]
        s'.fired :=
  scheduler_C5_time_ordering 3 10
    { syncPoints :=
        [{ timeStamp := 3, device := 1, userData := 0 },
         { timeStamp := 9, device := 2, userData := 1 }],
      scheduleTime := 0, scheduleInProgress := false, fired := [] }
    { timeStamp := 3, device := 1, userData := 0 }
    { timeStamp := 9, device := 2, userData := 1 }
    (by unfold timeSorted; decide) rfl (by decide) (by decide)
    (by decide) (by decide) (by decide)

/-- C6: with callbacks whose scheduler interaction consists of
`schedule` calls (in particular nested calls with smaller limits), a
top-level drain fires every due point exactly once and in order, skips
none, and leaves the non-due suffix pending; moreover any `schedule`
call arriving while a drain is in progress is detected through the
`scheduleInProgress` flag and only updates the bookkeeping field
`scheduleTime`, deferring all draining to the outer loop. -/
theorem scheduler_C6_reentrant_safety (env : Env) (fuel : Nat)
    (limit : EmuTime) (s : State) (henv : scheduleOnly env)
    (hflag : s.scheduleInProgress = false)
    (hfuel : s.syncPoints.length < fuel) :
    (∀ (g : Nat) (l : EmuTime) (t : State), t.scheduleInProgress = true →
       schedule env g l t = some { t with scheduleTime := l }) ∧
    schedule env fuel limit s =
      some { syncPoints := s.syncPoints.dropWhile (dueBool limit),
             scheduleTime := limit, scheduleInProgress := false,
             fired := s.fired ++
               (s.syncPoints.takeWhile (dueBool limit)).map toEvent } :=
  ⟨fun _ l t ht => scheduleWith_inProgress _ l t ht,
   schedule_scheduleOnly env henv fuel limit s hflag hfuel⟩

/-- Witness for C6 at a concrete input: every callback performs a
nested `schedule(1)`; draining `[5, 7]` up to limit 6 fires exactly the
time-5 point once and keeps the time-7 point pending. -/
theorem scheduler_C6_reentrant_safety_witness :
    (∀ (g : Nat) (l : EmuTime) (t : State), t.scheduleInProgress = true →
       schedule (fun _ _ _ => [Cmd.schedule 1]) g l t =
         some { t with scheduleTime := l }) ∧
    schedule (fun _ _ _ => [Cmd.schedule 1]) 3 6
      { syncPoints :=
          [{ timeStamp := 5, device := 1, userData := 0 },
           { timeStamp := 7, device := 1, userData := 1 }],
        scheduleTime := 0, scheduleInProgress := false, fired := [] } =
      some
        { syncPoints := [{ timeStamp := 7, device := 1, userData := 1 }],
          scheduleTime := 6, scheduleInProgress := false,
          fired := [{ time := 5, device := 1, userData := 0 }] } :=
  scheduler_C6_reentrant_safety (fun _ _ _ => [Cmd.schedule 1]) 3 6
    { syncPoints :=
        [{ timeStamp := 5, device := 1, userData := 0 },
         { timeStamp := 7, device := 1, userData := 1 }],
      scheduleTime := 0, scheduleInProgress := false, fired := [] }
    (by
      intro d t u c hc
      rw [List.mem_singleton] at hc
      exact ⟨1, hc⟩)
    rfl (by decide)

/-- C7: `setSyncPoint(time, device, tag)` carries the precondition
that `time` is not earlier than the scheduler's current time; an
earlier time trips the fatal assertion (modelled as `none`, not a
recoverable result), and under the precondition the assertion never
fires: registration succeeds and performs the queue insertion. -/
theorem scheduler_C7_set_sync_point_precondition (s : State)
    (t : EmuTime) (d : DeviceId) (u : Int) :
    (setSyncPoint s t d u = none ↔ t < s.scheduleTime) ∧
    (s.scheduleTime ≤ t →
      setSyncPoint s t d u =
        some { s with syncPoints := insertPoint s.syncPoints ⟨t, d, u⟩ }) := by
  constructor
  · by_cases h : t < s.scheduleTime
    · simp [setSyncPoint_none s t d u h, h]
    · simp [setSyncPoint_eq s t d u (not_lt.mp h), h]
  · exact setSyncPoint_eq s t d u

/-- Witness for C7 at a concrete input: with current time 5,
registering at time 3 trips the assertion and registering at time 7
succeeds. -/
theorem scheduler_C7_set_sync_point_precondition_witness :
    (setSyncPoint
        { syncPoints := [], scheduleTime := 5, scheduleInProgress := false,
          fired := [] } 3 1 0 = none ↔
      (3 : EmuTime) < 5) ∧
    ((5 : EmuTime) ≤ 7 →
      setSyncPoint
        { syncPoints := [], scheduleTime := 5, scheduleInProgress := false,
          fired := [] } 7 1 0 =
      some
        { syncPoints := [{ timeStamp := 7, device := 1, userData := 0 }],
          scheduleTime := 5, scheduleInProgress := false, fired := [] }) :=
  ⟨(scheduler_C7_set_sync_point_precondition
      { syncPoints := [], scheduleTime := 5, scheduleInProgress := false,
        fired := [] } 3 1 0).1,
   (scheduler_C7_set_sync_point_precondition
      { syncPoints := [], scheduleTime := 5, scheduleInProgress := false,
        fired := [] } 7 1 0).2⟩

/-- C8: on a non-empty queue, `getNext()` returns the time of the
earliest pending synchronization point: its result is the timestamp of
some pending point and is less than or equal to every pending point's
timestamp.  (`getNext` is a pure observer of the state, so it performs
no mutation; on an empty queue the source expression
`syncPoints.front()` is undefined and the caller must guard.) -/
theorem scheduler_C8_get_next (s : State)
    (hsorted : timeSorted s.syncPoints) (hne : s.syncPoints ≠ []) :
    getNext s ∈ s.syncPoints.map SynchronizationPoint.timeStamp ∧
    ∀ sp ∈ s.syncPoints, getNext s ≤ sp.timeStamp := by
  cases hq : s.syncPoints with
  | nil => exact absurd hq hne
  | cons x xs =>
    have hgn : getNext s = x.timeStamp := by simp [getNext, hq]
    rw [hq] at hsorted
    simp only [timeSorted, List.pairwise_cons] at hsorted
    constructor
    · rw [hgn]
      exact List.mem_map_of_mem _ (List.mem_cons_self x xs)
    · intro sp hsp
      rw [hgn]
      rcases List.mem_cons.mp hsp with rfl | hsp
      · exact le_refl _
      · exact hsorted.1 sp hsp

/-- Witness for C8 at a concrete input: queue `[3, 9]`, `getNext`
returns 3, which is a pending time and minimal. -/
theorem scheduler_C8_get_next_witness :
    getNext
        { syncPoints :=
            [{ timeStamp := 3, device := 1, userData := 0 },
             { timeStamp := 9, device := 2, userData := 1 }],
          scheduleTime := 0, scheduleInProgress := false, fired := [] } ∈
      List.map SynchronizationPoint.timeStamp
        [{ timeStamp := 3, device := 1, userData := 0 },
         { timeStamp := 9, device := 2, userData := 1 }] ∧
    ∀ sp ∈
      [({ timeStamp := 3, device := 1, userData := 0 } :
          SynchronizationPoint),
       { timeStamp := 9, device := 2, userData := 1 }],
      getNext
        { syncPoints :=
            [{ timeStamp := 3, device := 1, userData := 0 },
             { timeStamp := 9, device := 2, userData := 1 }],
          scheduleTime := 0, scheduleInProgress := false, fired := [] } ≤
        sp.timeStamp :=
  scheduler_C8_get_next
    { syncPoints :=
        [{ timeStamp := 3, device := 1, userData := 0 },
         { timeStamp := 9, device := 2, userData := 1 }],
      scheduleTime := 0, scheduleInProgress := false, fired := [] }
    (by unfold timeSorted; decide) (by decide)

/-- C9: when at least one pending point matches the given device and
tag, `removeSyncPoint(device, tag)` removes exactly one matching point
(the match count drops by exactly one and the queue shrinks to a
sublist of itself), and every non-matching pending point remains in the
queue unchanged and in order. -/
theorem scheduler_C9_remove_sync_point (s : State) (d : DeviceId)
    (u : Int) (hmatch : ∃ sp ∈ s.syncPoints, matchesPoint d u sp = true) :
    ((removeSyncPoint s d u).syncPoints.filter (matchesPoint d u)).length
        + 1 =
      (s.syncPoints.filter (matchesPoint d u)).length ∧
    (removeSyncPoint s d u).syncPoints.filter
        (fun sp => !(matchesPoint d u sp)) =
      s.syncPoints.filter (fun sp => !(matchesPoint d u sp)) ∧
    List.Sublist (removeSyncPoint s d u).syncPoints s.syncPoints := by
  obtain ⟨h1, h2⟩ := removeFirst_filter (matchesPoint d u) s.syncPoints
    hmatch
  exact ⟨h1, h2, removeFirst_sublist (matchesPoint d u) s.syncPoints⟩

/-- Witness for C9 at a concrete input: two points match device 1 tag
0 and one belongs to device 2; the removal drops exactly one match and
keeps the non-matching point. -/
theorem scheduler_C9_remove_sync_point_witness :
    ((removeSyncPoint
        { syncPoints :=
            [{ timeStamp := 5, device := 1, userData := 0 },
             { timeStamp := 6, device := 1, userData := 0 },
             { timeStamp := 7, device := 2, userData := 3 }],
          scheduleTime := 0, scheduleInProgress := false, fired := [] }
        1 0).syncPoints.filter (matchesPoint 1 0)).length + 1 =
      ([{ timeStamp := 5, device := 1, userData := 0 },
        { timeStamp := 6, device := 1, userData := 0 },
        { timeStamp := 7, device := 2, userData := 3 }].filter
          (matchesPoint 1 0)).length ∧
    (removeSyncPoint
        { syncPoints :=
            [{ timeStamp := 5, device := 1, userData := 0 },
             { timeStamp := 6, device := 1, userData := 0 },
             { timeStamp := 7, device := 2, userData := 3 }],
          scheduleTime := 0, scheduleInProgress := false, fired := [] }
        1 0).syncPoints.filter (fun sp => !(matchesPoint 1 0 sp)) =
      [{ timeStamp := 5, device := 1, userData := 0 },
       { timeStamp := 6, device := 1, userData := 0 },
       { timeStamp := 7, device := 2, userData := 3 }].filter
        (fun sp => !(matchesPoint 1 0 sp)) ∧
    List.Sublist
      (removeSyncPoint
        { syncPoints :=
            [{ timeStamp := 5, device := 1, userData := 0 },
             { timeStamp := 6, device := 1, userData := 0 },
             { timeStamp := 7, device := 2, userData := 3 }],
          scheduleTime := 0, scheduleInProgress := false, fired := [] }
        1 0).syncPoints
      [{ timeStamp := 5, device := 1, userData := 0 },
       { timeStamp := 6, device := 1, userData := 0 },
       { timeStamp := 7, device := 2, userData := 3 }] :=
  scheduler_C9_remove_sync_point
    { syncPoints :=
        [{ timeStamp := 5, device := 1, userData := 0 },
         { timeStamp := 6, device := 1, userData := 0 },
         { timeStamp := 7, device := 2, userData := 3 }],
      scheduleTime := 0, scheduleInProgress := false, fired := [] }
    1 0 (by decide)

/-- C10: whenever `schedule(limit)` completes, the recorded current
time equals exactly `limit`, whether or not callbacks fired — the
assignment `scheduleTime = limit` in the header is unconditional, with
no hypothesis relating `limit` to the previously reached time, so a
caller passing an earlier limit moves the current time backwards
(monotonicity is a caller obligation the code neither enforces nor
asserts). -/
theorem scheduler_C10_schedule_time_unconditional (env : Env)
    (fuel : Nat) (limit : EmuTime) (s s' : State)
    (h : schedule env fuel limit s = some s') :
    s'.scheduleTime = limit := by
  rw [schedule, scheduleWith] at h
  cases hx : (if getNext s ≤ limit
      then scheduleHelperWith (fun l t => drain env fuel l t) limit s
      else some s) with
  | none =>
    rw [hx] at h
    cases h
  | some t =>
    rw [hx] at h
    have h' := Option.some.inj h
    exact (congrArg State.scheduleTime h').symm

/-- Witness for C10 at a concrete input in which the limit 3 is
earlier than the previously reached time 7: the call succeeds and the
current time moves backwards to exactly 3. -/
theorem scheduler_C10_schedule_time_unconditional_witness :
    (State.mk [{ timeStamp := 10, device := 0, userData := 0 }] 3 false
      []).scheduleTime = 3 :=
  scheduler_C10_schedule_time_unconditional passiveEnv 1 3
    (State.mk [{ timeStamp := 10, device := 0, userData := 0 }] 7 false [])
    (State.mk [{ timeStamp := 10, device := 0, userData := 0 }] 3 false [])
    (by decide)

end openmsx
